import Mathlib

/-!
Shallow embedding of the tile/source-data lifecycle core of the
maplibre-gl-js fork: the GeoJSON source diff model (`applySourceDiff`,
`mergeSourceDiffs`, `isUpdateableGeoJSON`), the bounded LRU caches, and the
vector-tile retention strategy (`onFinishUpdate`).

JavaScript `Map` objects are modelled as insertion-ordered association
lists: `set` overwrites in place (keeping the original insertion
position) or appends, `delete` filters, iteration follows list order.
JavaScript `Set` objects are modelled as duplicate-free lists with
append-if-new insertion.  Optional fields become `Option`; JavaScript
truthiness checks are modelled explicitly where the source relies on them.
Code that can throw is modelled in `Except Unit`.
-/

set_option maxHeartbeats 1000000

/-- JS `Map.prototype.get` on an insertion-ordered association list. -/
def jsGet {K V : Type} [DecidableEq K] : List (K × V) → K → Option V
  | [], _ => none
  | (k', v) :: rest, k => if k' = k then some v else jsGet rest k

/-- JS `Map.prototype.delete`: removes the binding of a key. -/
def jsDelete {K V : Type} [DecidableEq K] : List (K × V) → K → List (K × V)
  | [], _ => []
  | (k', v) :: rest, k => if k' = k then jsDelete rest k else (k', v) :: jsDelete rest k

/-- JS `Map.prototype.set`: overwrites in place (keeping the key's original
insertion position) or appends a new binding at the end. -/
def jsSet {K V : Type} [DecidableEq K] : List (K × V) → K → V → List (K × V)
  | [], k, v => [(k, v)]
  | (k', v') :: rest, k, v =>
      if k' = k then (k, v) :: rest else (k', v') :: jsSet rest k v

/-- JS `Map.prototype.has`. -/
def jsContains {K V : Type} [DecidableEq K] (l : List (K × V)) (k : K) : Bool :=
  (jsGet l k).isSome

/-- JS `new Map(pairs)`: later value wins, position of first insertion. -/
def jsMapOfList {K V : Type} [DecidableEq K] (pairs : List (K × V)) : List (K × V) :=
  pairs.foldl (fun m p => jsSet m p.1 p.2) []

/-- JS `Set.prototype.add`: appends if not already a member. -/
def jsSetAdd {A : Type} [DecidableEq A] (s : List A) (a : A) : List A :=
  if a ∈ s then s else s ++ [a]

/-- JS `new Set(list)`: deduplicates keeping first occurrences. -/
def jsSetOfList {A : Type} [DecidableEq A] (l : List A) : List A :=
  l.foldl jsSetAdd []

/-- JS truthiness of an optional string (`undefined` and `""` are falsy). -/
def jsTruthyStr : Option String → Bool
  | none => false
  | some s => s ≠ ""

/-- JS truthiness of an optional boolean (`undefined` and `false` are falsy). -/
def jsTruthyOB : Option Bool → Bool
  | none => false
  | some b => b

/-- JS `a || b` on optional booleans (returns `a` when `a` is truthy). -/
def jsOrOB (a b : Option Bool) : Option Bool :=
  if jsTruthyOB a then a else b

/-! ## GeoJSON source diff model (`update_model` module) -/

/-- `GeoJSONFeatureId = number | string`; the two kinds are distinct
(integer `5` is a different identifier from string `"5"`). -/
inductive GeoJSONFeatureId : Type
  | num (n : Int)
  | str (s : String)
deriving DecidableEq, Repr

/-- A GeoJSON property value: `null`, a number, or a string. -/
inductive PVal : Type
  | pNull
  | pNum (n : Int)
  | pStr (s : String)
deriving DecidableEq, Repr

/-- A property bag (JS object): insertion-ordered string-keyed map. -/
abbrev Props := List (String × PVal)

/-- A GeoJSON feature: optional intrinsic `id`, nullable `properties`,
and a geometry (opaque to the diff model, represented by a tag). -/
structure Feature where
  fid : Option GeoJSONFeatureId
  properties : Option Props
  geometry : Nat
deriving DecidableEq, Repr

/-- `GeoJSONFeatureDiff`: identifies one feature and carries the four
optional mutations. -/
structure GeoJSONFeatureDiff where
  fdid : GeoJSONFeatureId
  newGeometry : Option Nat
  removeAllProperties : Option Bool
  removeProperties : Option (List String)
  addOrUpdateProperties : Option (List (String × PVal))
deriving DecidableEq, Repr

/-- `GeoJSONSourceDiff`: the ordered optional-field diff record. -/
structure GeoJSONSourceDiff where
  removeAll : Option Bool
  remove : Option (List GeoJSONFeatureId)
  add : Option (List Feature)
  update : Option (List GeoJSONFeatureDiff)
deriving DecidableEq, Repr

/-- The empty diff `{}`. -/
def emptyDiff : GeoJSONSourceDiff := ⟨none, none, none, none⟩

/-- Interpret a property value as a feature id (`id != null` lets numbers
and strings through; `null`/absent resolve to nothing). -/
def pvalToId : Option PVal → Option GeoJSONFeatureId
  | some (PVal.pNum n) => some (GeoJSONFeatureId.num n)
  | some (PVal.pStr s) => some (GeoJSONFeatureId.str s)
  | _ => none

/-- `getFeatureId(feature, promoteId)`: `promoteId ? feature.properties[promoteId]
: feature.id`.  When a truthy promote-id is configured and `properties` is
`null`, the property access throws a TypeError (modelled as `.error`). -/
def getFeatureId (f : Feature) (promoteId : Option String) :
    Except Unit (Option GeoJSONFeatureId) :=
  match promoteId with
  | some p =>
      if p = "" then Except.ok f.fid
      else
        match f.properties with
        | none => Except.error ()
        | some props => Except.ok (pvalToId (jsGet props p))
  | none => Except.ok f.fid

/-- The working set: id-indexed feature map (a JS `Map`). -/
abbrev WorkingSet := List (GeoJSONFeatureId × Feature)

/-- `!!update.newGeometry` (a geometry object is truthy when present). -/
def changeGeometry (u : GeoJSONFeatureDiff) : Bool :=
  u.newGeometry.isSome

/-- `update.removeAllProperties || update.removeProperties?.length > 0 ||
update.addOrUpdateProperties?.length > 0`. -/
def changeProps (u : GeoJSONFeatureDiff) : Bool :=
  jsTruthyOB u.removeAllProperties
    || decide ((u.removeProperties.getD []).length > 0)
    || decide ((u.addOrUpdateProperties.getD []).length > 0)

/-- The mutation performed on the cloned feature in the update branch of
`applySourceDiff` (lines replacing geometry and rebuilding properties). -/
def applyFeatureDiffVal (u : GeoJSONFeatureDiff) (f : Feature) : Feature :=
  let g := match u.newGeometry with
    | some g => g
    | none => f.geometry
  let props :=
    if changeProps u then
      let p0 : Props :=
        if jsTruthyOB u.removeAllProperties then [] else f.properties.getD []
      let p1 := (u.removeProperties.getD []).foldl jsDelete p0
      let p2 := (u.addOrUpdateProperties.getD []).foldl (fun m p => jsSet m p.1 p.2) p1
      some p2
    else f.properties
  { f with geometry := g, properties := props }

/-- The body of the `diff.update` loop in `applySourceDiff`: skip absent
ids, skip pure no-ops, otherwise clone-and-mutate and store back. -/
def applyOneUpdate (ws : WorkingSet) (u : GeoJSONFeatureDiff) : WorkingSet :=
  match jsGet ws u.fdid with
  | none => ws
  | some f =>
      if !changeGeometry u && !changeProps u then ws
      else jsSet ws u.fdid (applyFeatureDiffVal u f)

/-- The `removeAll` pass of `applySourceDiff`. -/
def applyRemoveAllPass (ws : WorkingSet) (d : GeoJSONSourceDiff) : WorkingSet :=
  if jsTruthyOB d.removeAll then [] else ws

/-- The `remove` pass of `applySourceDiff`. -/
def applyRemovePass (ws : WorkingSet) (d : GeoJSONSourceDiff) : WorkingSet :=
  match d.remove with
  | none => ws
  | some ids => ids.foldl jsDelete ws

/-- The `add` loop of `applySourceDiff`: resolve each feature's id via
`getFeatureId` (which can throw), silently skipping null ids. -/
def addLoop (promoteId : Option String) :
    WorkingSet → List Feature → Except Unit WorkingSet
  | ws, [] => Except.ok ws
  | ws, f :: rest =>
      match getFeatureId f promoteId with
      | Except.error e => Except.error e
      | Except.ok none => addLoop promoteId ws rest
      | Except.ok (some i) => addLoop promoteId (jsSet ws i f) rest

/-- The `add` pass of `applySourceDiff`. -/
def applyAddPass (ws : WorkingSet) (d : GeoJSONSourceDiff)
    (promoteId : Option String) : Except Unit WorkingSet :=
  match d.add with
  | none => Except.ok ws
  | some fs => addLoop promoteId ws fs

/-- The `update` pass of `applySourceDiff`. -/
def applyUpdatePass (ws : WorkingSet) (d : GeoJSONSourceDiff) : WorkingSet :=
  match d.update with
  | none => ws
  | some us => us.foldl applyOneUpdate ws

/-- `applySourceDiff(updateable, diff, promoteId)`: processes `removeAll`,
then `remove`, then `add`, then `update`. -/
def applySourceDiff (ws : WorkingSet) (d : GeoJSONSourceDiff)
    (promoteId : Option String) : Except Unit WorkingSet :=
  let ws1 := applyRemoveAllPass ws d
  let ws2 := applyRemovePass ws1 d
  match applyAddPass ws2 d promoteId with
  | Except.error e => Except.error e
  | Except.ok ws3 => Except.ok (applyUpdatePass ws3 d)

/-! ## `mergeSourceDiffs` and its hashed representation -/

/-- `mergeFeatureDiffs(prev, next)` (value level): starts from `{...prev}`;
`next`'s geometry wins, its property lists are appended after `prev`'s, and
`removeAllProperties` is ORed in. -/
def mergeFeatureDiffs (p n : GeoJSONFeatureDiff) : GeoJSONFeatureDiff :=
  let m := p
  let m := if n.newGeometry.isSome then { m with newGeometry := n.newGeometry } else m
  let m := match n.addOrUpdateProperties with
    | none => m
    | some l => { m with addOrUpdateProperties := some ((p.addOrUpdateProperties.getD []) ++ l) }
  let m := match n.removeProperties with
    | none => m
    | some l => { m with removeProperties := some ((p.removeProperties.getD []) ++ l) }
  if jsTruthyOB n.removeAllProperties then { m with removeAllProperties := some true } else m

/-- `GeoJSONSourceDiffHashed`: the internal id-indexed representation; the
`add` map is keyed by the intrinsic `feature.id!` (possibly absent). -/
structure GeoJSONSourceDiffHashed where
  removeAll : Option Bool
  remove : List GeoJSONFeatureId
  add : List (Option GeoJSONFeatureId × Feature)
  update : List (GeoJSONFeatureId × GeoJSONFeatureDiff)
deriving DecidableEq, Repr

/-- `diffToHashed`: converts a diff to Sets/Maps; note the `add` map is
keyed by `feature.id!`, not by a promote-id resolution. -/
def diffToHashed (d : GeoJSONSourceDiff) : GeoJSONSourceDiffHashed :=
  { removeAll := d.removeAll
    remove := jsSetOfList (d.remove.getD [])
    add := jsMapOfList ((d.add.getD []).map (fun f => (f.fid, f)))
    update := jsMapOfList ((d.update.getD []).map (fun u => (u.fdid, u))) }

/-- `hashedToDiff`: back to the array representation, emitting only
non-empty fields. -/
def hashedToDiff (h : GeoJSONSourceDiffHashed) : GeoJSONSourceDiff :=
  { removeAll := if jsTruthyOB h.removeAll then h.removeAll else none
    remove := if h.remove.length > 0 then some h.remove else none
    add := if h.add.length > 0 then some (h.add.map Prod.snd) else none
    update := if h.update.length > 0 then some (h.update.map Prod.snd) else none }

/-- `mergeSourceDiffs(prevDiff, nextDiff)`. -/
def mergeSourceDiffs (prevDiff nextDiff : Option GeoJSONSourceDiff) :
    GeoJSONSourceDiff :=
  match prevDiff with
  | none => nextDiff.getD emptyDiff
  | some pd =>
    match nextDiff with
    | none => pd
    | some nd =>
      let prev := diffToHashed pd
      let next := diffToHashed nd
      -- removing all features wipes previous pending adds and updates
      let prev :=
        if jsTruthyOB next.removeAll then { prev with add := [], update := [] } else prev
      -- removing a feature wipes any previous pending add/update of its id
      let prev := next.remove.foldl
        (fun (pr : GeoJSONSourceDiffHashed) i =>
          { pr with add := jsDelete pr.add (some i), update := jsDelete pr.update i })
        prev
      -- updates of the same id are merged into next, dropped from prev
      let (nextUpdate, prevUpdate) := next.update.foldl
        (fun (acc : List (GeoJSONFeatureId × GeoJSONFeatureDiff) ×
                    List (GeoJSONFeatureId × GeoJSONFeatureDiff)) p =>
          match jsGet acc.2 p.1 with
          | none => acc
          | some pu => (jsSet acc.1 p.1 (mergeFeatureDiffs pu p.2), jsDelete acc.2 p.1))
        (next.update, prev.update)
      let merged : GeoJSONSourceDiffHashed :=
        { removeAll := jsOrOB prev.removeAll next.removeAll
          remove := jsSetOfList (prev.remove ++ next.remove)
          add := jsMapOfList (prev.add ++ next.add)
          update := jsMapOfList (prevUpdate ++ nextUpdate) }
      -- adding a feature supersedes a pending removal of its id
      let merged :=
        if merged.remove.length > 0 && merged.add.length > 0 then
          { merged with
            remove := (merged.add.map Prod.fst).foldl
              (fun (s : List GeoJSONFeatureId) k =>
                match k with
                | some i => s.filter (fun j => j ≠ i)
                | none => s) merged.remove }
        else merged
      hashedToDiff merged

/-! ## Bounded LRU cache (generic, `part_002` variant)

The state records the hook invocations in `hookLog` (the on-evict hook is
an external callback; each call appends its argument).  `falsy` is the JS
truthiness test on stored values, used by `remove`'s `if (!value) return`. -/

structure CacheState (K V : Type) where
  maxEntries : Int
  entries : List (K × V)
  hookLog : List V
deriving DecidableEq, Repr

/-- Empty cache with the given capacity. -/
def cacheInit (K V : Type) (c : Int) : CacheState K V := ⟨c, [], []⟩

/-- `remove(key)`: `const value = this.map.get(key); if (!value) return;
this.map.delete(key); this.onRemove?.(value);`. -/
def cacheRemove {K V : Type} [DecidableEq K] (falsy : V → Bool)
    (st : CacheState K V) (k : K) : CacheState K V :=
  match jsGet st.entries k with
  | none => st
  | some v =>
      if falsy v then st
      else { st with entries := jsDelete st.entries k, hookLog := st.hookLog ++ [v] }

/-- `removeOldest()`: removes the first (least-recently-used) key; on an
empty map the key is `undefined` and `remove` is a no-op. -/
def removeOldest {K V : Type} [DecidableEq K] (falsy : V → Bool)
    (st : CacheState K V) : CacheState K V :=
  match st.entries with
  | [] => st
  | (k, _) :: _ => cacheRemove falsy st k

/-- `get(key)`: on a hit, delete-and-reinsert moves the entry to the
most-recently-used end; an absent lookup changes nothing. -/
def cacheGet {K V : Type} [DecidableEq K] (st : CacheState K V) (k : K) :
    Option V × CacheState K V :=
  match jsGet st.entries k with
  | none => (none, st)
  | some v => (some v, { st with entries := jsSet (jsDelete st.entries k) k v })

/-- `set(key, value)`: remove an existing binding of the key, else evict the
oldest entry when at capacity, then insert as most-recent. -/
def cacheSet {K V : Type} [DecidableEq K] (falsy : V → Bool)
    (st : CacheState K V) (k : K) (v : V) : CacheState K V :=
  let st1 :=
    if jsContains st.entries k then cacheRemove falsy st k
    else if (st.entries.length : Int) ≥ st.maxEntries then removeOldest falsy st
    else st
  { st1 with entries := jsSet st1.entries k v }

/-- The `while (this.map.size > this.maxEntries) this.removeOldest();` loop
of `setMaxSize`, with explicit fuel; `none` models non-termination (the
loop makes no progress when the oldest entry is falsy or the capacity is
negative). -/
def evictLoop {K V : Type} [DecidableEq K] (falsy : V → Bool) :
    Nat → CacheState K V → Option (CacheState K V)
  | 0, st =>
      if (st.entries.length : Int) > st.maxEntries then none else some st
  | fuel + 1, st =>
      if (st.entries.length : Int) > st.maxEntries then
        evictLoop falsy fuel (removeOldest falsy st)
      else some st

/-- `setMaxSize(n)`: set the capacity, then evict oldest-first while over
it.  The fuel `entries.length` suffices whenever the loop terminates. -/
def setMaxSize {K V : Type} [DecidableEq K] (falsy : V → Bool)
    (st : CacheState K V) (n : Int) : Option (CacheState K V) :=
  let st1 := { st with maxEntries := n }
  evictLoop falsy st1.entries.length st1

/-- Run a sequence of `set` calls from an empty cache of capacity `c`. -/
def runSets {K V : Type} [DecidableEq K] (falsy : V → Bool) (c : Int)
    (ops : List (K × V)) : CacheState K V :=
  ops.foldl (fun st p => cacheSet falsy st p.1 p.2) (cacheInit K V c)

/-! ## Tile identity caches (`part_001`, both variants) -/

/-- Modelled from the spec: a tile identifier carries an opaque canonical
key plus a world-copy index; `wrapped()` normalizes the world-copy index
away and `key` injectively encodes the remaining coordinates (`tile_id`
is outside the sources provided). -/
structure OverscaledTileID where
  canonKey : Nat
  wrap : Int
deriving DecidableEq, Repr

/-- Modelled from the spec: `tileID.wrapped().key`, the
world-copy-independent cache key. -/
def wrappedKey (t : OverscaledTileID) : Nat := t.canonKey

/-- A cached tile payload carrying its (possibly world-shifted) identifier. -/
structure CachedTile where
  tileID : OverscaledTileID
  payload : Nat
deriving DecidableEq, Repr

/-- State of the first (standalone) `BoundedLRUTileCache` variant. -/
structure TileCacheA where
  maxEntries : Int
  map : List (Nat × CachedTile)
  hookLog : List CachedTile
deriving DecidableEq, Repr

/-- `get(tileID)` of the first `BoundedLRUTileCache` variant: on a hit the
entry is moved to the most-recent end and its `tileID` is overwritten with
the caller's identifier; on a miss the code still executes
`tile.tileID = tileID` on `undefined`, which throws a TypeError
(modelled as `.error`). -/
def tileCacheGetA (st : TileCacheA) (tid : OverscaledTileID) :
    Except Unit (CachedTile × TileCacheA) :=
  let k := wrappedKey tid
  match jsGet st.map k with
  | some t =>
      let t' := { t with tileID := tid }
      Except.ok (t', { st with map := jsSet (jsDelete st.map k) k t' })
  | none => Except.error ()

/-- `remove(tileID)` of the first `BoundedLRUTileCache` variant: guarded
no-op (no hook call) when the wrapped key is absent. -/
def tileCacheRemoveA (st : TileCacheA) (tid : OverscaledTileID) : TileCacheA :=
  let k := wrappedKey tid
  match jsGet st.map k with
  | none => st
  | some v => { st with map := jsDelete st.map k, hookLog := st.hookLog ++ [v] }

/-- `get(tileID)` of the second (wrapping) `BoundedLRUTileCache` variant:
delegates to the generic cache's `get` and only mutates `tile.tileID`
behind an `if (tile)` guard; an absent key returns `undefined` with no
state change. -/
def tileCacheGetB (st : CacheState Nat CachedTile) (tid : OverscaledTileID) :
    Option CachedTile × CacheState Nat CachedTile :=
  let k := wrappedKey tid
  match jsGet st.entries k with
  | some t =>
      let t' := { t with tileID := tid }
      (some t', { st with entries := jsSet (jsDelete st.entries k) k t' })
  | none => (none, st)

/-- `remove(tileID)` of the second variant: delegates to the generic
cache's guarded `remove` (tiles are objects, hence never falsy). -/
def tileCacheRemoveB (st : CacheState Nat CachedTile) (tid : OverscaledTileID) :
    CacheState Nat CachedTile :=
  cacheRemove (fun _ => false) st (wrappedKey tid)

/-! ## Vector tile retention strategy (`VectorTileStrategy`) -/

/-- Modelled from the spec: the fade-hold state of a resident tile — it
carries whether it holds renderable symbol content and an optional
fade-hold deadline (the `Tile` class is outside the sources provided);
the clock is an externally supplied monotonic reading. -/
structure FadeTile where
  hasSymbolBuckets : Bool
  symbolHoldUntil : Option Nat
deriving DecidableEq, Repr

/-- Modelled from the spec: clearing a fade hold resets the tile to "not
holding", so a future re-eviction restarts the hold from zero. -/
def clearSymbolFadeHold (t : FadeTile) : FadeTile :=
  { t with symbolHoldUntil := none }

/-- Modelled from the spec: a tile is holding for symbol fade exactly when
its fade-hold timer is armed. -/
def holdingForSymbolFade (t : FadeTile) : Bool :=
  t.symbolHoldUntil.isSome

/-- Modelled from the spec: arming the fade hold records the deadline
`now + duration` from the external clock reading. -/
def setSymbolHoldDuration (dur now : Nat) (t : FadeTile) : FadeTile :=
  { t with symbolHoldUntil := some (now + dur) }

/-- Modelled from the spec: the fade is finished once the elapsed time
reaches the configured duration, i.e. the clock has reached the deadline. -/
def symbolFadeFinished (now : Nat) (t : FadeTile) : Bool :=
  match t.symbolHoldUntil with
  | none => true
  | some u => decide (now ≥ u)

/-- `VectorTileStrategy.onFinishUpdate`: per resident tile, clear the hold
when retained, mark symbol-less non-retained tiles for removal, arm the
hold for symbol-bearing tiles first dropping out of `retain`, and mark
already-holding tiles whose fade has finished.  Returns the updated tiles
and the ids marked for removal, in iteration order. -/
def onFinishUpdate (tiles : List (String × FadeTile)) (retain : String → Bool)
    (fadeDuration now : Nat) : List (String × FadeTile) × List String :=
  match tiles with
  | [] => ([], [])
  | (k, t) :: rest =>
      let (restTiles, restIds) := onFinishUpdate rest retain fadeDuration now
      if retain k then ((k, clearSymbolFadeHold t) :: restTiles, restIds)
      else if !t.hasSymbolBuckets then ((k, t) :: restTiles, k :: restIds)
      else if !holdingForSymbolFade t then
        ((k, setSymbolHoldDuration fadeDuration now t) :: restTiles, restIds)
      else if symbolFadeFinished now t then ((k, t) :: restTiles, k :: restIds)
      else ((k, t) :: restTiles, restIds)

/-! ## `isUpdateableGeoJSON` -/

/-- The shape of a GeoJSON value handed to `isUpdateableGeoJSON`: a single
feature, a feature collection, or any other GeoJSON value (geometries
etc.); the overall input may also be `null`. -/
inductive GeoData : Type
  | geoFeature (f : Feature)
  | geoCollection (fs : List Feature)
  | geoOther
deriving DecidableEq, Repr

/-- The feature-collection loop of `isUpdateableGeoJSON`: every feature
must resolve to a non-null id that was not seen before. -/
def collectionLoop (promoteId : Option String) (seen : List GeoJSONFeatureId) :
    List Feature → Except Unit Bool
  | [] => Except.ok true
  | f :: rest =>
      match getFeatureId f promoteId with
      | Except.error e => Except.error e
      | Except.ok none => Except.ok false
      | Except.ok (some i) =>
          if i ∈ seen then Except.ok false
          else collectionLoop promoteId (jsSetAdd seen i) rest

/-- `isUpdateableGeoJSON(data, promoteId)`. -/
def isUpdateableGeoJSON (data : Option GeoData) (promoteId : Option String) :
    Except Unit Bool :=
  match data with
  | none => Except.ok true
  | some (GeoData.geoFeature f) =>
      match getFeatureId f promoteId with
      | Except.error e => Except.error e
      | Except.ok i => Except.ok i.isSome
  | some (GeoData.geoCollection fs) => collectionLoop promoteId [] fs
  | some GeoData.geoOther => Except.ok false

/-- The id a feature resolves to, as a total function (the crash-free
reading of `getFeatureId`, treating null `properties` as an empty bag);
used to state specification-side properties. -/
def resolvedId (f : Feature) (promoteId : Option String) : Option GeoJSONFeatureId :=
  match promoteId with
  | some p =>
      if p = "" then f.fid
      else pvalToId (jsGet (f.properties.getD []) p)
  | none => f.fid

/-- Stated from the spec's words: an updateable value is null, an
id-bearing single feature, or a collection whose resolved ids are all
non-null and pairwise distinct. -/
def specIsUpdateable (data : Option GeoData) (promoteId : Option String) : Bool :=
  match data with
  | none => true
  | some (GeoData.geoFeature f) => (resolvedId f promoteId).isSome
  | some (GeoData.geoCollection fs) =>
      decide (∀ f ∈ fs, (resolvedId f promoteId).isSome)
        && decide ((fs.map (fun f => resolvedId f promoteId)).Nodup)
  | some GeoData.geoOther => false

/-- A value is crash-safe for id resolution when no feature pairs a null
`properties` object with a truthy promote-id. -/
def featureSafe (f : Feature) (promoteId : Option String) : Prop :=
  jsTruthyStr promoteId = true → f.properties ≠ none

/-! ## Reference-level (heap) model of the update pass

JavaScript objects live on a heap and the working set stores references;
`{...feature}` allocates a fresh object.  This refines the value-level
`applyOneUpdate` to make the copy-on-write discipline statable. -/

/-- A heap of feature objects addressed by allocation index, plus the
working set mapping ids to references. -/
structure RefWorkingSet where
  ws : List (GeoJSONFeatureId × Nat)
  heap : List (Nat × Feature)
  nextRef : Nat
deriving DecidableEq, Repr

/-- The body of the `diff.update` loop at reference level: a no-op entry
leaves the stored reference untouched; otherwise `{...feature}` allocates
a fresh object which is mutated and stored, the original object staying
intact on the heap. -/
def applyOneUpdateRef (st : RefWorkingSet) (u : GeoJSONFeatureDiff) : RefWorkingSet :=
  match jsGet st.ws u.fdid with
  | none => st
  | some r =>
      match jsGet st.heap r with
      | none => st
      | some f =>
          if !changeGeometry u && !changeProps u then st
          else
            { ws := jsSet st.ws u.fdid st.nextRef
              heap := st.heap ++ [(st.nextRef, applyFeatureDiffVal u f)]
              nextRef := st.nextRef + 1 }

/-! ## Reference-level model of `mergeFeatureDiffs`

The property arrays inside feature diffs are JS arrays (references);
`{...prev}` copies the references, and `push` mutates the array in place.
This refines the value-level `mergeFeatureDiffs` to make aliasing
observable. -/

/-- A feature diff whose two property lists are array references. -/
structure FeatureDiffR where
  fdid : GeoJSONFeatureId
  newGeometry : Option Nat
  removeAllProperties : Option Bool
  removeProperties : Option Nat
  addOrUpdateProperties : Option Nat
deriving DecidableEq, Repr

/-- The array heap for feature diffs: key-value property arrays and
property-name arrays, with a fresh-allocation counter. -/
structure ArrHeap where
  propArrs : List (Nat × List (String × PVal))
  nameArrs : List (Nat × List String)
  nextRef : Nat
deriving DecidableEq, Repr

/-- `mergeFeatureDiffs(prev, next)` at reference level: `{...prev}` copies
`prev`'s array references into `merged`; `(merged.addOrUpdateProperties ??= [])
.push(...next.addOrUpdateProperties)` appends into the referenced array —
which is `prev`'s own array whenever `prev` carried one. -/
def mergeFeatureDiffsR (p n : FeatureDiffR) (h : ArrHeap) : FeatureDiffR × ArrHeap :=
  let m := p
  let m := if n.newGeometry.isSome then { m with newGeometry := n.newGeometry } else m
  let (m, h) :=
    match n.addOrUpdateProperties with
    | none => (m, h)
    | some nr =>
        let nArr := (jsGet h.propArrs nr).getD []
        match m.addOrUpdateProperties with
        | some r =>
            let old := (jsGet h.propArrs r).getD []
            (m, { h with propArrs := jsSet h.propArrs r (old ++ nArr) })
        | none =>
            (({ m with addOrUpdateProperties := some h.nextRef }),
             { h with propArrs := jsSet h.propArrs h.nextRef nArr
                      nextRef := h.nextRef + 1 })
  let (m, h) :=
    match n.removeProperties with
    | none => (m, h)
    | some nr =>
        let nArr := (jsGet h.nameArrs nr).getD []
        match m.removeProperties with
        | some r =>
            let old := (jsGet h.nameArrs r).getD []
            (m, { h with nameArrs := jsSet h.nameArrs r (old ++ nArr) })
        | none =>
            (({ m with removeProperties := some h.nextRef }),
             { h with nameArrs := jsSet h.nameArrs h.nextRef nArr
                      nextRef := h.nextRef + 1 })
  if jsTruthyOB n.removeAllProperties then
    ({ m with removeAllProperties := some true }, h)
  else (m, h)

/-! ## Concrete fixtures used by counterexamples and witnesses -/

/-- JS falsiness for numeric cache values (`0` is falsy). -/
def falsyInt : Int → Bool := fun v => v == 0

/-- A feature with intrinsic id `1`, empty properties, geometry tag `0`. -/
def featOld : Feature := ⟨some (GeoJSONFeatureId.num 1), some [], 0⟩

/-- A feature with intrinsic id `1`, empty properties, geometry tag `5`. -/
def featNew : Feature := ⟨some (GeoJSONFeatureId.num 1), some [], 5⟩

/-- An update diff for id `1` setting property `k := 7`. -/
def updK7 : GeoJSONFeatureDiff := ⟨GeoJSONFeatureId.num 1, none, none, none, some [("k", PVal.pNum 7)]⟩

/-- A pending diff holding only the stale update `updK7`. -/
def diffPrevUpdate : GeoJSONSourceDiff := ⟨none, none, none, some [updK7]⟩

/-- A later diff that adds a fresh feature with the same id `1`. -/
def diffNextAdd : GeoJSONSourceDiff := ⟨none, none, some [featNew], none⟩

/-- A working set holding feature `1`. -/
def wsOne : WorkingSet := [(GeoJSONFeatureId.num 1, featOld)]

/-- The feature added by the `diff apply order` scenario. -/
def featAdd1 : Feature := ⟨some (GeoJSONFeatureId.num 1), some [], 7⟩

/-- The update of the `diff apply order` scenario: set `k := "v"` on id 1. -/
def updSetKV : GeoJSONFeatureDiff := ⟨GeoJSONFeatureId.num 1, none, none, none, some [("k", PVal.pStr "v")]⟩

/-- The `diff apply order` scenario diff: `removeAll`, add id 1, update id 1. -/
def diffOrderDemo : GeoJSONSourceDiff := ⟨some true, none, some [featAdd1], some [updSetKV]⟩

/-- A nonempty working set unrelated to id 1. -/
def wsOther : WorkingSet := [(GeoJSONFeatureId.num 2, featOld)]

/-- A feature with a null `properties` object. -/
def featNullProps : Feature := ⟨some (GeoJSONFeatureId.num 1), none, 0⟩

/-- A collection whose ids are integer `5` and string `"5"` — distinct
composite identifiers. -/
def collDistinct : List Feature :=
  [⟨some (GeoJSONFeatureId.num 5), some [], 0⟩, ⟨some (GeoJSONFeatureId.str "5"), some [], 1⟩]

/-- A feature whose intrinsic id is `1` while its `"p"` property promotes
to id `2`. -/
def featPromoted : Feature := ⟨some (GeoJSONFeatureId.num 1), some [("p", PVal.pNum 2)], 0⟩

/-- A diff adding only `featPromoted`. -/
def diffAddPromoted : GeoJSONSourceDiff := ⟨none, none, some [featPromoted], none⟩

/-- Cache state after `set A, set B, set C` at capacity 3 (values 1,2,3). -/
def stABC : CacheState Nat Int := runSets falsyInt 3 [(10, 1), (20, 2), (30, 3)]

/-- An empty standalone tile cache of capacity 5. -/
def emptyTileA : TileCacheA := ⟨5, [], []⟩

/-- An empty wrapped tile cache of capacity 5. -/
def emptyTileB : CacheState Nat CachedTile := cacheInit Nat CachedTile 5

/-- A tile identifier with canonical key 3 on world copy 0. -/
def tidX : OverscaledTileID := ⟨3, 0⟩

/-- A reference-level working set holding feature 1 at heap address 0. -/
def refWS : RefWorkingSet := ⟨[(GeoJSONFeatureId.num 1, 0)], [(0, featOld)], 1⟩

/-- `prev` feature diff whose add/update property list lives at array 0. -/
def mergePrevR : FeatureDiffR := ⟨GeoJSONFeatureId.num 1, none, none, none, some 0⟩

/-- `next` feature diff whose add/update property list lives at array 1. -/
def mergeNextR : FeatureDiffR := ⟨GeoJSONFeatureId.num 1, none, none, none, some 1⟩

/-- The array heap before merging: array 0 holds `[("a",1)]` (owned by
`prev`), array 1 holds `[("b",2)]` (owned by `next`). -/
def heap0 : ArrHeap := ⟨[(0, [("a", PVal.pNum 1)]), (1, [("b", PVal.pNum 2)])], [], 2⟩

/-- A single non-retained symbol-bearing resident tile. -/
def tilesOne : List (String × FadeTile) := [("a", ⟨true, none⟩)]

/-- Pure mirror of the feature-collection loop of `isUpdateableGeoJSON`,
phrased with the total `resolvedId`. -/
def collectOk (promoteId : Option String) (seen : List GeoJSONFeatureId) :
    List Feature → Bool
  | [] => true
  | f :: rest =>
      match resolvedId f promoteId with
      | none => false
      | some i =>
          if i ∈ seen then false
          else collectOk promoteId (jsSetAdd seen i) rest

/-- The features contained in a GeoJSON value handed to
`isUpdateableGeoJSON`. -/
def dataFeatures : Option GeoData → List Feature
  | none => []
  | some (GeoData.geoFeature f) => [f]
  | some (GeoData.geoCollection fs) => fs
  | some GeoData.geoOther => []

/-! ## Lemmas about the JS map model -/

theorem jsGet_eq_none {K V : Type} [DecidableEq K] (l : List (K × V)) (k : K) :
    jsGet l k = none ↔ k ∉ l.map Prod.fst := by
  induction l with
  | nil => simp [jsGet]
  | cons p rest ih =>
      obtain ⟨k', v⟩ := p
      by_cases h : k' = k
      · subst h; simp [jsGet]
      · simp [jsGet, h, ih, Ne.symm h]

theorem jsGet_mem {K V : Type} [DecidableEq K] {l : List (K × V)} {k : K} {v : V}
    (h : jsGet l k = some v) : (k, v) ∈ l := by
  induction l with
  | nil => simp [jsGet] at h
  | cons p rest ih =>
      obtain ⟨k', v'⟩ := p
      by_cases hk : k' = k
      · subst hk
        simp [jsGet] at h
        simp [h]
      · simp [jsGet, hk] at h
        exact List.mem_cons_of_mem _ (ih h)

theorem jsDelete_sublist {K V : Type} [DecidableEq K] (l : List (K × V)) (k : K) :
    (jsDelete l k).Sublist l := by
  induction l with
  | nil => simp [jsDelete]
  | cons p rest ih =>
      obtain ⟨k', v⟩ := p
      by_cases h : k' = k
      · simpa [jsDelete, h] using ih.cons (k', v)
      · simpa [jsDelete, h] using ih.cons₂ (k', v)

theorem jsDelete_of_none {K V : Type} [DecidableEq K] {l : List (K × V)} {k : K}
    (h : jsGet l k = none) : jsDelete l k = l := by
  induction l with
  | nil => simp [jsDelete]
  | cons p rest ih =>
      obtain ⟨k', v⟩ := p
      by_cases hk : k' = k
      · simp [jsGet, hk] at h
      · simp [jsGet, hk] at h
        simp [jsDelete, hk, ih h]

theorem jsGet_jsDelete_self {K V : Type} [DecidableEq K] (l : List (K × V)) (k : K) :
    jsGet (jsDelete l k) k = none := by
  induction l with
  | nil => simp [jsDelete, jsGet]
  | cons p rest ih =>
      obtain ⟨k', v⟩ := p
      by_cases h : k' = k
      · simp [jsDelete, h, ih]
      · simp [jsDelete, jsGet, h, ih]

theorem jsGet_jsDelete_ne {K V : Type} [DecidableEq K] (l : List (K × V)) {k k' : K}
    (h : k' ≠ k) : jsGet (jsDelete l k) k' = jsGet l k' := by
  induction l with
  | nil => simp [jsDelete]
  | cons p rest ih =>
      obtain ⟨k'', v⟩ := p
      by_cases hk : k'' = k
      · subst hk
        simp [jsDelete, jsGet, Ne.symm h, ih]
      · by_cases hk' : k'' = k'
        · subst hk'
          simp [jsDelete, jsGet, hk]
        · simp [jsDelete, jsGet, hk, hk', ih]

theorem length_jsDelete_of_some {K V : Type} [DecidableEq K] {l : List (K × V)}
    {k : K} {v : V} (hnd : (l.map Prod.fst).Nodup) (h : jsGet l k = some v) :
    (jsDelete l k).length + 1 = l.length := by
  induction l with
  | nil => simp [jsGet] at h
  | cons p rest ih =>
      obtain ⟨k', v'⟩ := p
      simp only [List.map_cons, List.nodup_cons] at hnd
      by_cases hk : k' = k
      · subst hk
        have : jsGet rest k' = none := (jsGet_eq_none rest k').2 hnd.1
        simp [jsDelete, jsDelete_of_none this]
      · simp [jsGet, hk] at h
        simp [jsDelete, hk, ih hnd.2 h]

theorem snd_jsDelete_perm {K V : Type} [DecidableEq K] {l : List (K × V)}
    {k : K} {v : V} (hnd : (l.map Prod.fst).Nodup) (h : jsGet l k = some v) :
    (v :: (jsDelete l k).map Prod.snd).Perm (l.map Prod.snd) := by
  induction l with
  | nil => simp [jsGet] at h
  | cons p rest ih =>
      obtain ⟨k', v'⟩ := p
      simp only [List.map_cons, List.nodup_cons] at hnd
      by_cases hk : k' = k
      · subst hk
        have hnone : jsGet rest k' = none := (jsGet_eq_none rest k').2 hnd.1
        simp [jsGet] at h
        subst h
        simp [jsDelete, jsDelete_of_none hnone]
      · simp [jsGet, hk] at h
        have hperm := (ih hnd.2 h).cons v'
        have hshape : (v :: ((jsDelete ((k', v') :: rest) k).map Prod.snd))
            = v :: v' :: (jsDelete rest k).map Prod.snd := by simp [jsDelete, hk]
        rw [hshape]
        simpa using (List.Perm.swap v' v _).trans hperm

theorem jsSet_of_none {K V : Type} [DecidableEq K] {l : List (K × V)} {k : K}
    (v : V) (h : jsGet l k = none) : jsSet l k v = l ++ [(k, v)] := by
  induction l with
  | nil => simp [jsSet]
  | cons p rest ih =>
      obtain ⟨k', v'⟩ := p
      by_cases hk : k' = k
      · simp [jsGet, hk] at h
      · simp [jsGet, hk] at h
        simp [jsSet, hk, ih h]

theorem jsGet_jsSet_self {K V : Type} [DecidableEq K] (l : List (K × V)) (k : K) (v : V) :
    jsGet (jsSet l k v) k = some v := by
  induction l with
  | nil => simp [jsSet, jsGet]
  | cons p rest ih =>
      obtain ⟨k', v'⟩ := p
      by_cases hk : k' = k
      · simp [jsSet, jsGet, hk]
      · simp [jsSet, jsGet, hk, ih]

theorem jsGet_append_left {K V : Type} [DecidableEq K] {l1 : List (K × V)}
    (l2 : List (K × V)) {k : K} {v : V} (h : jsGet l1 k = some v) :
    jsGet (l1 ++ l2) k = some v := by
  induction l1 with
  | nil => simp [jsGet] at h
  | cons p rest ih =>
      obtain ⟨k', v'⟩ := p
      by_cases hk : k' = k
      · subst hk; simp [jsGet] at h ⊢; exact h
      · simp [jsGet, hk] at h ⊢; exact ih h

theorem jsGet_append_right {K V : Type} [DecidableEq K] {l1 : List (K × V)}
    (l2 : List (K × V)) {k : K} (h : jsGet l1 k = none) :
    jsGet (l1 ++ l2) k = jsGet l2 k := by
  induction l1 with
  | nil => simp
  | cons p rest ih =>
      obtain ⟨k', v'⟩ := p
      by_cases hk : k' = k
      · simp [jsGet, hk] at h
      · simp [jsGet, hk] at h ⊢; exact ih h

/-! ## Supporting lemmas for individual components -/

/-- When the diff's `removeAll` is truthy the initial working set is
irrelevant to `applySourceDiff`. -/
theorem applySourceDiff_of_removeAll (ws : WorkingSet) (d : GeoJSONSourceDiff)
    (pid : Option String) (h : jsTruthyOB d.removeAll = true) :
    applySourceDiff ws d pid = applySourceDiff [] d pid := by
  unfold applySourceDiff applyRemoveAllPass
  rw [h]
  simp

/-- The `setMaxSize` eviction loop makes no progress when the oldest entry
is falsy, for any amount of fuel: the source's `while` loop runs forever. -/
theorem evictLoop_stuck_on_falsy :
    ∀ fuel : Nat, evictLoop falsyInt fuel ⟨0, [(1, 0)], []⟩ = none := by
  intro fuel
  induction fuel with
  | zero => decide
  | succ n ih => simpa [evictLoop, removeOldest, cacheRemove, jsGet, falsyInt] using ih

/-- With a negative capacity the eviction loop empties the cache and then
spins on the empty map forever (size `0 > n` never becomes false). -/
theorem evictLoop_stuck_on_negative :
    ∀ fuel : Nat, evictLoop falsyInt fuel ⟨-1, ([] : List (Nat × Int)), [5]⟩ = none := by
  intro fuel
  induction fuel with
  | zero => decide
  | succ n ih =>
      simpa [evictLoop, removeOldest, cacheRemove, jsGet] using ih

/-! ## Claim theorems -/

/-- Claim C1 (code bug): merging `diffPrevUpdate` (a pending update of id 1)
with `diffNextAdd` (a later add of id 1) is not equivalent to applying the
two diffs in sequence: the merged diff keeps the stale update, which
re-applies property `k := 7` on top of the freshly added feature, while
sequential application leaves the added feature untouched. -/
theorem mergeSourceDiffs_breaks_apply_equivalence :
    (applySourceDiff wsOne diffPrevUpdate none).bind
        (fun w => applySourceDiff w diffNextAdd none)
      = Except.ok [(GeoJSONFeatureId.num 1, featNew)]
    ∧ applySourceDiff wsOne (mergeSourceDiffs (some diffPrevUpdate) (some diffNextAdd)) none
      = Except.ok [(GeoJSONFeatureId.num 1,
          { featNew with properties := some [("k", PVal.pNum 7)] })]
    ∧ ([(GeoJSONFeatureId.num 1, featNew)] : WorkingSet)
      ≠ [(GeoJSONFeatureId.num 1, { featNew with properties := some [("k", PVal.pNum 7)] })] := by
  refine ⟨rfl, rfl, by decide⟩

/-- Claim C3: `applySourceDiff` always processes `removeAll`, then `remove`,
then `add`, then `update`, whatever fields are populated; and the
`removeAll + add id 1 + update id 1 (k := "v")` diff turns any non-empty
working set into exactly `{1 ↦ feature with k = "v"}`. -/
theorem applySourceDiff_order :
    (∀ (ws : WorkingSet) (d : GeoJSONSourceDiff) (pid : Option String),
      applySourceDiff ws d pid
        = (applyAddPass (applyRemovePass (applyRemoveAllPass ws d) d) d pid).map
            (fun w => applyUpdatePass w d))
    ∧ (∀ ws : WorkingSet, ws ≠ [] →
        applySourceDiff ws diffOrderDemo none
          = Except.ok [(GeoJSONFeatureId.num 1,
              { featAdd1 with properties := some [("k", PVal.pStr "v")] })]) := by
  constructor
  · intro ws d pid
    unfold applySourceDiff
    cases h : applyAddPass (applyRemovePass (applyRemoveAllPass ws d) d) d pid with
    | error e => simp [h, Except.map]
    | ok w => simp [h, Except.map]
  · intro ws _hne
    rw [applySourceDiff_of_removeAll ws diffOrderDemo none (by decide)]
    rfl

/-- Witness for C3 at the concrete non-empty working set `wsOther`. -/
theorem applySourceDiff_order_witness :
    wsOther ≠ [] ∧
    applySourceDiff wsOther diffOrderDemo none
      = Except.ok [(GeoJSONFeatureId.num 1,
          { featAdd1 with properties := some [("k", PVal.pStr "v")] })] :=
  ⟨by decide, applySourceDiff_order.2 wsOther (by decide)⟩

/-- Claim C6 (code bug): the standalone `BoundedLRUTileCache.get` executes
`tile.tileID = tileID` even when the wrapped key is absent, throwing a
TypeError; the wrapping variant returns no value with no state change,
and its `remove` on an absent key is a hook-free no-op. -/
theorem tileCacheGetA_throws_on_absent :
    tileCacheGetA emptyTileA tidX = Except.error ()
    ∧ tileCacheGetB emptyTileB tidX = (none, emptyTileB)
    ∧ tileCacheRemoveB emptyTileB tidX = emptyTileB
    ∧ tileCacheRemoveA emptyTileA tidX = emptyTileA := by
  refine ⟨rfl, rfl, rfl, rfl⟩

/-- Claim C8 (code bug): `mergeFeatureDiffs` copies `prev` with a spread,
so `merged.addOrUpdateProperties` aliases `prev`'s own array, and the
subsequent `push` appends `next`'s entries into it: after the merge the
array at address 0 — owned by the input `prev` — has been extended from
`[("a",1)]` to `[("a",1),("b",2)]`. -/
theorem mergeFeatureDiffsR_mutates_prev_array :
    jsGet heap0.propArrs 0 = some [("a", PVal.pNum 1)]
    ∧ jsGet (mergeFeatureDiffsR mergePrevR mergeNextR heap0).2.propArrs 0
      = some [("a", PVal.pNum 1), ("b", PVal.pNum 2)]
    ∧ (mergeFeatureDiffsR mergePrevR mergeNextR heap0).1.addOrUpdateProperties = some 0 := by
  refine ⟨by decide, by decide, by decide⟩

/-- Claim C2, counterexample: with capacity 0 a single `set` leaves one
entry (`size > c`), and with capacity 1 a stored falsy value defeats
`removeOldest`'s `if (!value) return` guard so a second `set` leaves two
entries. -/
theorem cacheSet_size_bound_fails :
    ¬ (((runSets falsyInt 0 [(1, 5)]).entries.length : Int) ≤ 0)
    ∧ ¬ (((runSets falsyInt 1 [(1, 0), (2, 5)]).entries.length : Int) ≤ 1) := by
  refine ⟨by decide, by decide⟩

/-- Claim C5, counterexample: `setMaxSize` fails to shrink the cache — the
eviction loop diverges (modelled as `none`) when the oldest entry is falsy
(capacity 0 case) or when the requested capacity is negative. -/
theorem setMaxSize_diverges :
    setMaxSize falsyInt (runSets falsyInt 3 [(1, 0)]) 0 = none
    ∧ setMaxSize falsyInt (runSets falsyInt 3 [(1, 5)]) (-1) = none := by
  refine ⟨by decide, by decide⟩

/-- Claim C9, counterexample: a single feature with a null `properties`
object under a configured promote-id makes `isUpdateableGeoJSON` throw
(the property access on `null`), instead of returning `false` as the
exactly-characterization demands. -/
theorem isUpdateableGeoJSON_throws_on_null_properties :
    isUpdateableGeoJSON (some (GeoData.geoFeature featNullProps)) (some "p")
      = Except.error ()
    ∧ specIsUpdateable (some (GeoData.geoFeature featNullProps)) (some "p") = false := by
  refine ⟨rfl, rfl⟩

/-- Claim C10, counterexample: under promote-id `"p"`, `applySourceDiff`
resolves `featPromoted` to id `2`, but `diffToHashed` — the indexing used
by `mergeSourceDiffs` for all its add-conflict resolution — keys the same
feature by its intrinsic id `1`. -/
theorem diffToHashed_ignores_promoteId :
    getFeatureId featPromoted (some "p") = Except.ok (some (GeoJSONFeatureId.num 2))
    ∧ (diffToHashed diffAddPromoted).add.map Prod.fst = [some (GeoJSONFeatureId.num 1)]
    ∧ (GeoJSONFeatureId.num 2) ≠ (GeoJSONFeatureId.num 1) := by
  refine ⟨rfl, rfl, by decide⟩

/-- Claim C10, amended: `mergeSourceDiffs` indexes add features by the
intrinsic `feature.id`; this agrees with `applySourceDiff`'s resolution
exactly when no truthy promote-id is configured. -/
theorem diffToHashed_keys_by_intrinsic_id (pid : Option String)
    (hpid : jsTruthyStr pid = false) (f : Feature) (d : GeoJSONSourceDiff) :
    getFeatureId f pid = Except.ok f.fid
    ∧ (diffToHashed d).add = jsMapOfList ((d.add.getD []).map (fun g => (g.fid, g))) := by
  constructor
  · cases pid with
    | none => rfl
    | some p =>
        have hp : p = "" := by
          by_contra hne
          simp [jsTruthyStr, hne] at hpid
        subst hp
        simp [getFeatureId]
  · rfl

/-- Witness for the amended C10 at a concrete feature and diff with no
promote-id configured. -/
theorem diffToHashed_keys_by_intrinsic_id_witness :
    jsTruthyStr none = false ∧
    (getFeatureId featPromoted none = Except.ok featPromoted.fid
      ∧ (diffToHashed diffAddPromoted).add
        = jsMapOfList ((diffAddPromoted.add.getD []).map (fun g => (g.fid, g)))) :=
  ⟨by decide, diffToHashed_keys_by_intrinsic_id none (by decide) featPromoted diffAddPromoted⟩

/-- Claim C7: the update loop at reference level. A diff entry with none of
the four mutation fields leaves the entire state — in particular the stored
reference — untouched; otherwise the id is re-bound to a freshly allocated
object holding the mutated copy, and the pre-existing object is still
intact at its old address. -/
theorem applyOneUpdateRef_copy_on_write (st : RefWorkingSet) (u : GeoJSONFeatureDiff)
    (r : Nat) (f : Feature)
    (hws : jsGet st.ws u.fdid = some r)
    (hheap : jsGet st.heap r = some f)
    (hfresh : ∀ p ∈ st.heap, p.1 < st.nextRef) :
    (changeGeometry u = false ∧ changeProps u = false → applyOneUpdateRef st u = st)
    ∧ (¬(changeGeometry u = false ∧ changeProps u = false) →
        jsGet (applyOneUpdateRef st u).ws u.fdid = some st.nextRef
        ∧ st.nextRef ≠ r
        ∧ jsGet (applyOneUpdateRef st u).heap r = some f
        ∧ jsGet (applyOneUpdateRef st u).heap st.nextRef
            = some (applyFeatureDiffVal u f)) := by
  have hrlt : r < st.nextRef := hfresh (r, f) (jsGet_mem hheap)
  have hnone : jsGet st.heap st.nextRef = none := by
    rw [jsGet_eq_none]
    intro hmem
    obtain ⟨p, hp, hfst⟩ := List.mem_map.1 hmem
    exact absurd (hfst ▸ hfresh p hp) (lt_irrefl _)
  constructor
  · rintro ⟨hg, hp⟩
    simp [applyOneUpdateRef, hws, hheap, hg, hp]
  · intro hchange
    have hcond : (!changeGeometry u && !changeProps u) = false := by
      rcases Bool.eq_false_or_eq_true (changeGeometry u) with hg | hg
      · simp [hg]
      · rcases Bool.eq_false_or_eq_true (changeProps u) with hp | hp
        · simp [hp]
        · exact absurd ⟨hg, hp⟩ hchange
    refine ⟨?_, ?_, ?_, ?_⟩
    · simp [applyOneUpdateRef, hws, hheap, hcond, jsGet_jsSet_self]
    · exact fun h => absurd (h ▸ hrlt) (lt_irrefl _)
    · have : jsGet (st.heap ++ [(st.nextRef, applyFeatureDiffVal u f)]) r = some f :=
        jsGet_append_left _ hheap
      simpa [applyOneUpdateRef, hws, hheap, hcond] using this
    · have : jsGet (st.heap ++ [(st.nextRef, applyFeatureDiffVal u f)]) st.nextRef
          = some (applyFeatureDiffVal u f) := by
        rw [jsGet_append_right _ hnone]
        simp [jsGet]
      simpa [applyOneUpdateRef, hws, hheap, hcond] using this

/-- Witness for C7 at the concrete reference state `refWS` with the
property-changing update `updK7`. -/
theorem applyOneUpdateRef_copy_on_write_witness :
    jsGet refWS.ws updK7.fdid = some 0
    ∧ jsGet refWS.heap 0 = some featOld
    ∧ (¬(changeGeometry updK7 = false ∧ changeProps updK7 = false) →
        jsGet (applyOneUpdateRef refWS updK7).ws updK7.fdid = some refWS.nextRef
        ∧ refWS.nextRef ≠ 0
        ∧ jsGet (applyOneUpdateRef refWS updK7).heap 0 = some featOld
        ∧ jsGet (applyOneUpdateRef refWS updK7).heap refWS.nextRef
            = some (applyFeatureDiffVal updK7 featOld)) :=
  ⟨by decide, by decide,
    (applyOneUpdateRef_copy_on_write refWS updK7 0 featOld (by decide) (by decide)
      (by decide)).2⟩

/-- One step of the `onFinishUpdate` loop. -/
theorem onFinishUpdate_cons (k0 : String) (t0 : FadeTile)
    (rest : List (String × FadeTile)) (retain : String → Bool) (dur now : Nat) :
    onFinishUpdate ((k0, t0) :: rest) retain dur now =
      (if retain k0 then
        ((k0, clearSymbolFadeHold t0) :: (onFinishUpdate rest retain dur now).1,
         (onFinishUpdate rest retain dur now).2)
      else if !t0.hasSymbolBuckets then
        ((k0, t0) :: (onFinishUpdate rest retain dur now).1,
         k0 :: (onFinishUpdate rest retain dur now).2)
      else if !holdingForSymbolFade t0 then
        ((k0, setSymbolHoldDuration dur now t0) :: (onFinishUpdate rest retain dur now).1,
         (onFinishUpdate rest retain dur now).2)
      else if symbolFadeFinished now t0 then
        ((k0, t0) :: (onFinishUpdate rest retain dur now).1,
         k0 :: (onFinishUpdate rest retain dur now).2)
      else
        ((k0, t0) :: (onFinishUpdate rest retain dur now).1,
         (onFinishUpdate rest retain dur now).2)) := by
  simp only [onFinishUpdate]

/-- The ids returned by `onFinishUpdate` all come from the tile map. -/
theorem onFinishUpdate_mem_keys (tiles : List (String × FadeTile))
    (retain : String → Bool) (dur now : Nat) (k : String)
    (h : k ∈ (onFinishUpdate tiles retain dur now).2) : k ∈ tiles.map Prod.fst := by
  induction tiles with
  | nil => simp [onFinishUpdate] at h
  | cons p rest ih =>
      obtain ⟨k0, t0⟩ := p
      rw [onFinishUpdate_cons] at h
      split at h
      · simpa using Or.inr (ih h)
      · split at h
        · rcases List.mem_cons.1 h with hk | hk
          · simp [hk]
          · simpa using Or.inr (ih hk)
        · split at h
          · simpa using Or.inr (ih h)
          · split at h
            · rcases List.mem_cons.1 h with hk | hk
              · simp [hk]
              · simpa using Or.inr (ih hk)
            · simpa using Or.inr (ih h)

/-- The per-tile output of one loop step: the head key is re-emitted with
some state, and the removal list either gains the head key or not. -/
theorem onFinishUpdate_cons_shape (k0 : String) (t0 : FadeTile)
    (rest : List (String × FadeTile)) (retain : String → Bool) (dur now : Nat) :
    (∃ t', (onFinishUpdate ((k0, t0) :: rest) retain dur now).1
        = (k0, t') :: (onFinishUpdate rest retain dur now).1)
    ∧ ((onFinishUpdate ((k0, t0) :: rest) retain dur now).2
          = (onFinishUpdate rest retain dur now).2
        ∨ (onFinishUpdate ((k0, t0) :: rest) retain dur now).2
          = k0 :: (onFinishUpdate rest retain dur now).2) := by
  rw [onFinishUpdate_cons]
  split
  · exact ⟨⟨_, rfl⟩, Or.inl rfl⟩
  · split
    · exact ⟨⟨_, rfl⟩, Or.inr rfl⟩
    · split
      · exact ⟨⟨_, rfl⟩, Or.inl rfl⟩
      · split
        · exact ⟨⟨_, rfl⟩, Or.inr rfl⟩
        · exact ⟨⟨_, rfl⟩, Or.inl rfl⟩

/-- Claim C4: `onFinishUpdate` treats every resident tile by exactly one
rule — retained tiles get their fade hold cleared and are never returned;
non-retained symbol-less tiles are returned for removal; non-retained
symbol-bearing tiles not yet holding get the hold armed with the given
duration and are not returned; non-retained tiles already holding are
returned exactly when their fade has finished. -/
theorem onFinishUpdate_cases (tiles : List (String × FadeTile))
    (retain : String → Bool) (dur now : Nat)
    (hnd : (tiles.map Prod.fst).Nodup) (k : String) (t : FadeTile)
    (hmem : (k, t) ∈ tiles) :
    (retain k = true →
        (k, clearSymbolFadeHold t) ∈ (onFinishUpdate tiles retain dur now).1
        ∧ k ∉ (onFinishUpdate tiles retain dur now).2)
    ∧ (retain k = false → t.hasSymbolBuckets = false →
        (k, t) ∈ (onFinishUpdate tiles retain dur now).1
        ∧ k ∈ (onFinishUpdate tiles retain dur now).2)
    ∧ (retain k = false → t.hasSymbolBuckets = true → holdingForSymbolFade t = false →
        (k, setSymbolHoldDuration dur now t) ∈ (onFinishUpdate tiles retain dur now).1
        ∧ k ∉ (onFinishUpdate tiles retain dur now).2)
    ∧ (retain k = false → t.hasSymbolBuckets = true → holdingForSymbolFade t = true →
        (k, t) ∈ (onFinishUpdate tiles retain dur now).1
        ∧ ((k ∈ (onFinishUpdate tiles retain dur now).2)
            ↔ symbolFadeFinished now t = true)) := by
  revert hnd hmem
  induction tiles with
  | nil =>
      intro _ hmem
      simp at hmem
  | cons p rest ih =>
      intro hnd hmem
      obtain ⟨k0, t0⟩ := p
      simp only [List.map_cons, List.nodup_cons] at hnd
      have hrest_keys : ∀ x, x ∈ (onFinishUpdate rest retain dur now).2 →
          x ∈ rest.map Prod.fst :=
        fun x hx => onFinishUpdate_mem_keys rest retain dur now x hx
      rcases List.mem_cons.1 hmem with hhead | htail
      · simp only [Prod.mk.injEq] at hhead
        obtain ⟨rfl, rfl⟩ := hhead
        refine ⟨?_, ?_, ?_, ?_⟩
        · intro hret
          rw [onFinishUpdate_cons]
          simp only [hret, if_true]
          exact ⟨List.mem_cons_self _ _, fun hx => hnd.1 (hrest_keys k hx)⟩
        · intro hret hsym
          rw [onFinishUpdate_cons]
          simp only [hret, hsym, Bool.not_false, if_true, if_false]
          exact ⟨List.mem_cons_self _ _, List.mem_cons_self _ _⟩
        · intro hret hsym hhold
          rw [onFinishUpdate_cons]
          simp only [hret, hsym, hhold, Bool.not_true, Bool.not_false, if_true, if_false]
          exact ⟨List.mem_cons_self _ _, fun hx => hnd.1 (hrest_keys k hx)⟩
        · intro hret hsym hhold
          rw [onFinishUpdate_cons]
          rcases Bool.eq_false_or_eq_true (symbolFadeFinished now t) with hfin | hfin
          · exact ⟨by simp [hret, hsym, hhold, hfin], by simp [hret, hsym, hhold, hfin]⟩
          · have hne : k ∉ (onFinishUpdate rest retain dur now).2 :=
              fun hx => hnd.1 (hrest_keys k hx)
            exact ⟨by simp [hret, hsym, hhold, hfin],
              by simp [hret, hsym, hhold, hfin, hne]⟩
      · have hIH := ih hnd.2 htail
        have hkmem : k ∈ rest.map Prod.fst := List.mem_map_of_mem Prod.fst htail
        have hkne : k ≠ k0 := fun h => hnd.1 (h ▸ hkmem)
        obtain ⟨⟨t', hfst⟩, hsnd⟩ := onFinishUpdate_cons_shape k0 t0 rest retain dur now
        have hmem1 : ∀ x : String × FadeTile,
            x ∈ (onFinishUpdate rest retain dur now).1 →
            x ∈ (onFinishUpdate ((k0, t0) :: rest) retain dur now).1 := by
          intro x hx
          rw [hfst]
          exact List.mem_cons_of_mem _ hx
        have hmem2 : ∀ hx : k ∈ (onFinishUpdate rest retain dur now).2,
            k ∈ (onFinishUpdate ((k0, t0) :: rest) retain dur now).2 := by
          intro hx
          rcases hsnd with h2 | h2 <;> rw [h2]
          · exact hx
          · exact List.mem_cons_of_mem _ hx
        have hnotmem2 : ∀ _hx : k ∉ (onFinishUpdate rest retain dur now).2,
            k ∉ (onFinishUpdate ((k0, t0) :: rest) retain dur now).2 := by
          intro hx hc
          rcases hsnd with h2 | h2 <;> rw [h2] at hc
          · exact hx hc
          · rcases List.mem_cons.1 hc with h | h
            · exact hkne h
            · exact hx h
        have hiff2 : (k ∈ (onFinishUpdate ((k0, t0) :: rest) retain dur now).2)
            ↔ (k ∈ (onFinishUpdate rest retain dur now).2) := by
          rcases hsnd with h2 | h2
          · rw [h2]
          · rw [h2]
            simp [hkne]
        refine ⟨?_, ?_, ?_, ?_⟩
        · intro hret
          exact ⟨hmem1 _ ((hIH.1 hret).1), hnotmem2 ((hIH.1 hret).2)⟩
        · intro hret hsym
          exact ⟨hmem1 _ ((hIH.2.1 hret hsym).1), hmem2 ((hIH.2.1 hret hsym).2)⟩
        · intro hret hsym hhold
          exact ⟨hmem1 _ ((hIH.2.2.1 hret hsym hhold).1),
            hnotmem2 ((hIH.2.2.1 hret hsym hhold).2)⟩
        · intro hret hsym hhold
          exact ⟨hmem1 _ ((hIH.2.2.2 hret hsym hhold).1),
            hiff2.trans ((hIH.2.2.2 hret hsym hhold).2)⟩

/-- Witness for C4 at a single non-retained, symbol-bearing, not-yet-holding
tile: the hold is armed with the given duration and nothing is removed. -/
theorem onFinishUpdate_cases_witness :
    (tilesOne.map Prod.fst).Nodup ∧ ("a", (⟨true, none⟩ : FadeTile)) ∈ tilesOne ∧
    ((fun _ => false : String → Bool) "a" = false →
      (⟨true, none⟩ : FadeTile).hasSymbolBuckets = true →
      holdingForSymbolFade ⟨true, none⟩ = false →
      ("a", setSymbolHoldDuration 10 0 ⟨true, none⟩)
          ∈ (onFinishUpdate tilesOne (fun _ => false) 10 0).1
      ∧ "a" ∉ (onFinishUpdate tilesOne (fun _ => false) 10 0).2) :=
  ⟨by decide, by decide,
    (onFinishUpdate_cases tilesOne (fun _ => false) 10 0 (by decide) "a" ⟨true, none⟩
      (by decide)).2.2.1⟩

/-- Under the crash-safety condition, `getFeatureId` returns the total
resolution `resolvedId` without throwing. -/
theorem getFeatureId_safe (f : Feature) (pid : Option String)
    (h : featureSafe f pid) : getFeatureId f pid = Except.ok (resolvedId f pid) := by
  cases pid with
  | none => rfl
  | some p =>
      by_cases hp : p = ""
      · subst hp
        simp [getFeatureId, resolvedId]
      · have hprops : f.properties ≠ none := h (by simp [jsTruthyStr, hp])
        cases hprop : f.properties with
        | none => exact absurd hprop hprops
        | some props =>
            simp [getFeatureId, resolvedId, hp, hprop]

/-- Under crash-safety of every feature, the collection loop computes its
pure mirror `collectOk`. -/
theorem collectionLoop_eq_collectOk (pid : Option String) :
    ∀ (fs : List Feature) (seen : List GeoJSONFeatureId),
      (∀ f ∈ fs, featureSafe f pid) →
      collectionLoop pid seen fs = Except.ok (collectOk pid seen fs) := by
  intro fs
  induction fs with
  | nil => intro seen _; rfl
  | cons f rest ih =>
      intro seen hsafe
      have hf := getFeatureId_safe f pid (hsafe f (List.mem_cons_self _ _))
      cases hres : resolvedId f pid with
      | none =>
          simp [collectionLoop, collectOk, hf, hres]
      | some i =>
          by_cases hmem : i ∈ seen
          · simp [collectionLoop, collectOk, hf, hres, hmem]
          · have := ih (jsSetAdd seen i) (fun g hg => hsafe g (List.mem_cons_of_mem _ hg))
            simp [collectionLoop, collectOk, hf, hres, hmem, this]

/-- `collectOk` succeeds exactly when every feature resolves to an id, the
resolved ids are pairwise distinct, and none of them was seen before. -/
theorem collectOk_iff (pid : Option String) :
    ∀ (fs : List Feature) (seen : List GeoJSONFeatureId),
      collectOk pid seen fs = true ↔
        ((∀ f ∈ fs, (resolvedId f pid).isSome)
          ∧ (fs.map (fun f => resolvedId f pid)).Nodup
          ∧ (∀ f ∈ fs, ∀ i, resolvedId f pid = some i → i ∉ seen)) := by
  intro fs
  induction fs with
  | nil => intro seen; simp [collectOk]
  | cons f rest ih =>
      intro seen
      cases hres : resolvedId f pid with
      | none =>
          simp only [collectOk, hres]
          constructor
          · intro h; cases h
          · rintro ⟨hall, -, -⟩
            have := hall f (List.mem_cons_self _ _)
            rw [hres] at this
            cases this
      | some i =>
          by_cases hmem : i ∈ seen
          · simp only [collectOk, hres, hmem, if_true]
            constructor
            · intro h; cases h
            · rintro ⟨-, -, hdisj⟩
              exact absurd hmem (hdisj f (List.mem_cons_self _ _) i hres)
          · have hadd : jsSetAdd seen i = seen ++ [i] := by
              simp [jsSetAdd, hmem]
            simp only [collectOk, hres, hmem, if_false, hadd, ih (seen ++ [i])]
            constructor
            · rintro ⟨hall, hnd, hdisj⟩
              refine ⟨?_, ?_, ?_⟩
              · intro g hg
                rcases List.mem_cons.1 hg with rfl | hg'
                · simp [hres]
                · exact hall g hg'
              · simp only [List.map_cons, List.nodup_cons]
                refine ⟨?_, hnd⟩
                intro hc
                obtain ⟨g, hg, hgeq⟩ := List.mem_map.1 hc
                have := hdisj g hg
                rw [hgeq, hres] at this
                have := this i rfl
                simp at this
              · intro g hg j hj
                rcases List.mem_cons.1 hg with rfl | hg'
                · rw [hres] at hj
                  injection hj with hji
                  subst hji
                  exact hmem
                · intro hc
                  exact absurd (by simp [hc] : j ∈ seen ++ [i]) (hdisj g hg' j hj)
            · rintro ⟨hall, hnd, hdisj⟩
              simp only [List.map_cons, List.nodup_cons] at hnd
              refine ⟨?_, ?_, ?_⟩
              · intro g hg
                exact hall g (List.mem_cons_of_mem _ hg)
              · exact hnd.2
              · intro g hg j hj hc
                rcases List.mem_append.1 hc with hc' | hc'
                · exact hdisj g (List.mem_cons_of_mem _ hg) j hj hc'
                · simp only [List.mem_singleton] at hc'
                  subst hc'
                  apply hnd.1
                  rw [hres, ← hj]
                  exact List.mem_map_of_mem _ hg

/-- Claim C9, amended: provided no feature pairs a null `properties` object
with a truthy promote-id (otherwise the check throws instead of returning
false), `isUpdateableGeoJSON` returns true exactly for null, an id-bearing
single feature, or a collection with pairwise-distinct non-null resolved
ids — integer and string ids of the same digits being distinct. -/
theorem isUpdateableGeoJSON_characterization (data : Option GeoData)
    (pid : Option String)
    (hsafe : ∀ f ∈ dataFeatures data, featureSafe f pid) :
    isUpdateableGeoJSON data pid = Except.ok (specIsUpdateable data pid) := by
  cases data with
  | none => rfl
  | some g =>
      cases g with
      | geoFeature f =>
          have hf := getFeatureId_safe f pid (hsafe f (by simp [dataFeatures]))
          simp [isUpdateableGeoJSON, specIsUpdateable, hf]
      | geoCollection fs =>
          have hloop := collectionLoop_eq_collectOk pid fs []
            (fun f hf => hsafe f (by simpa [dataFeatures] using hf))
          have hval : collectOk pid [] fs = specIsUpdateable
              (some (GeoData.geoCollection fs)) pid := by
            rw [Bool.eq_iff_iff]
            rw [collectOk_iff pid fs []]
            simp [specIsUpdateable]
          simpa [isUpdateableGeoJSON, hval] using hloop
      | geoOther => rfl

/-- Witness for the amended C9: a collection whose ids are integer `5` and
string `"5"` is updateable — the composite identifiers are distinct. -/
theorem isUpdateableGeoJSON_characterization_witness :
    (∀ f ∈ dataFeatures (some (GeoData.geoCollection collDistinct)), featureSafe f none)
    ∧ isUpdateableGeoJSON (some (GeoData.geoCollection collDistinct)) none
      = Except.ok (specIsUpdateable (some (GeoData.geoCollection collDistinct)) none)
    ∧ specIsUpdateable (some (GeoData.geoCollection collDistinct)) none = true :=
  ⟨by intro f _ h; simp [jsTruthyStr] at h,
    isUpdateableGeoJSON_characterization (some (GeoData.geoCollection collDistinct)) none
      (by intro f _ h; simp [jsTruthyStr] at h),
    by decide⟩

/-- Single-`set` preservation: under positive capacity and truthy values,
`set` keeps the key set duplicate-free, values truthy, size within
capacity, and moves exactly the dislodged value (if any) into the hook
log while adding the new value. -/
theorem cacheSet_step {K V : Type} [DecidableEq K] [DecidableEq V]
    (falsy : V → Bool) (st : CacheState K V) (k : K) (v : V)
    (hc : 1 ≤ st.maxEntries)
    (hnd : (st.entries.map Prod.fst).Nodup)
    (hvals : ∀ w ∈ st.entries.map Prod.snd, falsy w = false)
    (hlen : (st.entries.length : Int) ≤ st.maxEntries)
    (hv : falsy v = false) :
    (cacheSet falsy st k v).maxEntries = st.maxEntries
    ∧ ((cacheSet falsy st k v).entries.map Prod.fst).Nodup
    ∧ (∀ w ∈ (cacheSet falsy st k v).entries.map Prod.snd, falsy w = false)
    ∧ ((cacheSet falsy st k v).entries.length : Int) ≤ st.maxEntries
    ∧ ((cacheSet falsy st k v).entries.map Prod.snd
        ++ (cacheSet falsy st k v).hookLog).Perm
        (st.entries.map Prod.snd ++ st.hookLog ++ [v]) := by
  by_cases hcont : jsContains st.entries k
  · -- overwrite: the old binding is removed (one hook call) then re-inserted
    obtain ⟨v0, hget⟩ : ∃ v0, jsGet st.entries k = some v0 := by
      cases h : jsGet st.entries k with
      | none => rw [jsContains, h] at hcont; cases hcont
      | some w => exact ⟨w, rfl⟩
    have hv0 : falsy v0 = false :=
      hvals v0 (List.mem_map_of_mem Prod.snd (jsGet_mem hget))
    have hstep : cacheSet falsy st k v =
        { maxEntries := st.maxEntries
          entries := jsDelete st.entries k ++ [(k, v)]
          hookLog := st.hookLog ++ [v0] } := by
      have hrem : cacheRemove falsy st k =
          { st with entries := jsDelete st.entries k, hookLog := st.hookLog ++ [v0] } := by
        simp [cacheRemove, hget, hv0]
      simp [cacheSet, hcont, hrem, jsSet_of_none v (jsGet_jsDelete_self st.entries k)]
    rw [hstep]
    have hdelnd : ((jsDelete st.entries k).map Prod.fst).Nodup :=
      hnd.sublist (List.Sublist.map Prod.fst (jsDelete_sublist st.entries k))
    have hknotin : k ∉ (jsDelete st.entries k).map Prod.fst :=
      (jsGet_eq_none _ _).1 (jsGet_jsDelete_self st.entries k)
    have hlend : (jsDelete st.entries k).length + 1 = st.entries.length :=
      length_jsDelete_of_some hnd hget
    have hperm := snd_jsDelete_perm hnd hget
    refine ⟨rfl, ?_, ?_, ?_, ?_⟩
    · rw [List.map_append]
      refine List.Nodup.append hdelnd (List.nodup_singleton k) ?_
      intro a ha hb
      simp only [List.map_cons, List.map_nil, List.mem_singleton] at hb
      subst hb
      exact hknotin ha
    · intro w hw
      simp only [List.map_append, List.map_cons, List.mem_append] at hw
      rcases hw with hw | hw
      · exact hvals w (List.Sublist.mem hw
          (List.Sublist.map Prod.snd (jsDelete_sublist st.entries k)))
      · simp at hw
        subst hw
        exact hv
    · simp only [List.length_append, List.length_cons, List.length_nil]
      omega
    · rw [List.perm_iff_count]
      intro a
      have hcnt := hperm.count_eq a
      simp only [List.count_cons, List.count_append, List.map_append, List.map_cons,
        List.map_nil, List.count_nil] at hcnt ⊢
      omega
  · by_cases hful : (st.entries.length : Int) ≥ st.maxEntries
    · -- at capacity: the least-recently-used head is evicted
      have hpos : 0 < st.entries.length := by
        by_contra hzero
        have : st.entries.length = 0 := by omega
        rw [this] at hful
        omega
      obtain ⟨⟨k0, v0⟩, rest, hsplit⟩ : ∃ p rest, st.entries = p :: rest := by
        cases h : st.entries with
        | nil => rw [h] at hpos; cases hpos
        | cons p rest => exact ⟨p, rest, rfl⟩
      have hv0 : falsy v0 = false := by
        apply hvals
        rw [hsplit]
        simp
      have hk0notin : k0 ∉ rest.map Prod.fst := by
        have := hnd
        rw [hsplit] at this
        simp only [List.map_cons, List.nodup_cons] at this
        exact this.1
      have hrestnd : (rest.map Prod.fst).Nodup := by
        have := hnd
        rw [hsplit] at this
        simp only [List.map_cons, List.nodup_cons] at this
        exact this.2
      have hdel : jsDelete st.entries k0 = rest := by
        rw [hsplit]
        simp [jsDelete, jsDelete_of_none ((jsGet_eq_none rest k0).2 hk0notin)]
      have hknotrest : jsGet rest k = none := by
        have : jsGet st.entries k = none := by
          cases h : jsGet st.entries k with
          | none => rfl
          | some w => rw [jsContains, h] at hcont; simp at hcont
        rw [hsplit] at this
        by_cases hkk : k0 = k
        · simp [jsGet, hkk] at this
        · simpa [jsGet, hkk] using this
      have hstep : cacheSet falsy st k v =
          { maxEntries := st.maxEntries
            entries := rest ++ [(k, v)]
            hookLog := st.hookLog ++ [v0] } := by
        have hold : removeOldest falsy st =
            { st with entries := rest, hookLog := st.hookLog ++ [v0] } := by
          rw [removeOldest]
          rw [hsplit]
          have hget0 : jsGet st.entries k0 = some v0 := by
            rw [hsplit]; simp [jsGet]
          have : cacheRemove falsy st k0 =
              { st with entries := rest, hookLog := st.hookLog ++ [v0] } := by
            simp [cacheRemove, hget0, hv0, hdel]
          simpa using this
        simp [cacheSet, hcont, hful, hold, jsSet_of_none v hknotrest]
      rw [hstep]
      have hlen' : rest.length + 1 = st.entries.length := by
        rw [hsplit]; simp
      refine ⟨rfl, ?_, ?_, ?_, ?_⟩
      · have hknotrest' : k ∉ rest.map Prod.fst := (jsGet_eq_none _ _).1 hknotrest
        rw [List.map_append]
        refine List.Nodup.append hrestnd (List.nodup_singleton k) ?_
        intro a ha hb
        simp only [List.map_cons, List.map_nil, List.mem_singleton] at hb
        subst hb
        exact hknotrest' ha
      · intro w hw
        simp only [List.map_append, List.map_cons, List.map_nil, List.mem_append] at hw
        rcases hw with hw | hw
        · apply hvals
          rw [hsplit]
          simp only [List.map_cons, List.mem_cons]
          exact Or.inr hw
        · simp at hw
          subst hw
          exact hv
      · simp only [List.length_append, List.length_cons, List.length_nil]
        omega
      · rw [List.perm_iff_count]
        intro a
        rw [hsplit]
        simp only [List.count_cons, List.count_append, List.map_append, List.map_cons,
          List.map_nil, List.count_nil]
        omega
    · -- under capacity: plain append
      have hnone : jsGet st.entries k = none := by
        cases h : jsGet st.entries k with
        | none => rfl
        | some w => rw [jsContains, h] at hcont; simp at hcont
      have hstep : cacheSet falsy st k v =
          { maxEntries := st.maxEntries
            entries := st.entries ++ [(k, v)]
            hookLog := st.hookLog } := by
        simp [cacheSet, hcont, hful, jsSet_of_none v hnone]
      rw [hstep]
      refine ⟨rfl, ?_, ?_, ?_, ?_⟩
      · have hknotin : k ∉ st.entries.map Prod.fst := (jsGet_eq_none _ _).1 hnone
        rw [List.map_append]
        refine List.Nodup.append hnd (List.nodup_singleton k) ?_
        intro a ha hb
        simp only [List.map_cons, List.map_nil, List.mem_singleton] at hb
        subst hb
        exact hknotin ha
      · intro w hw
        simp only [List.map_append, List.map_cons, List.map_nil, List.mem_append] at hw
        rcases hw with hw | hw
        · exact hvals w hw
        · simp at hw
          subst hw
          exact hv
      · simp only [List.length_append, List.length_cons, List.length_nil]
        omega
      · rw [List.perm_iff_count]
        intro a
        simp only [List.count_cons, List.count_append, List.map_append, List.map_cons,
          List.map_nil, List.count_nil]
        omega

/-- Fold extension of `cacheSet_step` over a whole sequence of `set` calls. -/
theorem runSets_aux {K V : Type} [DecidableEq K] [DecidableEq V] (falsy : V → Bool) :
    ∀ (ops : List (K × V)) (st : CacheState K V),
      1 ≤ st.maxEntries →
      (∀ p ∈ ops, falsy p.2 = false) →
      ((st.entries.map Prod.fst).Nodup) →
      (∀ w ∈ st.entries.map Prod.snd, falsy w = false) →
      ((st.entries.length : Int) ≤ st.maxEntries) →
      (ops.foldl (fun s p => cacheSet falsy s p.1 p.2) st).maxEntries = st.maxEntries
      ∧ (((ops.foldl (fun s p => cacheSet falsy s p.1 p.2) st).entries.map Prod.fst).Nodup)
      ∧ (((ops.foldl (fun s p => cacheSet falsy s p.1 p.2) st).entries.length : Int)
          ≤ st.maxEntries)
      ∧ ((ops.foldl (fun s p => cacheSet falsy s p.1 p.2) st).entries.map Prod.snd
          ++ (ops.foldl (fun s p => cacheSet falsy s p.1 p.2) st).hookLog).Perm
          (st.entries.map Prod.snd ++ st.hookLog ++ ops.map Prod.snd) := by
  intro ops
  induction ops with
  | nil =>
      intro st _ _ hnd _ hlen
      exact ⟨rfl, hnd, hlen, by simp⟩
  | cons p rest ih =>
      intro st hc hops hnd hvals hlen
      obtain ⟨k, v⟩ := p
      have hv : falsy v = false := hops (k, v) (List.mem_cons_self _ _)
      have hstep := cacheSet_step falsy st k v hc hnd hvals hlen hv
      obtain ⟨hmax1, hnd1, hvals1, hlen1, hperm1⟩ := hstep
      have hrest : ∀ q ∈ rest, falsy q.2 = false :=
        fun q hq => hops q (List.mem_cons_of_mem _ hq)
      have hc1 : 1 ≤ (cacheSet falsy st k v).maxEntries := by rw [hmax1]; exact hc
      have hlen1' : ((cacheSet falsy st k v).entries.length : Int)
          ≤ (cacheSet falsy st k v).maxEntries := by rw [hmax1]; exact hlen1
      have hih := ih (cacheSet falsy st k v) hc1 hrest hnd1 hvals1 hlen1'
      obtain ⟨hmax2, hnd2, hlen2, hperm2⟩ := hih
      refine ⟨by simp only [List.foldl_cons]; rw [hmax2, hmax1],
        by simpa using hnd2, ?_, ?_⟩
      · simp only [List.foldl_cons]
        rw [hmax1] at hmax2 hlen2
        exact hlen2
      · simp only [List.foldl_cons, List.map_cons]
        rw [List.perm_iff_count]
        intro a
        have h1 := hperm1.count_eq a
        have h2 := hperm2.count_eq a
        simp only [List.count_append, List.count_cons, List.count_nil] at h1 h2 ⊢
        omega

/-- Claim C2, amended: for every capacity `c ≥ 1` and every sequence of
`set` calls storing truthy (non-falsy) values, the cache holds at most `c`
entries after every call, and the evict hook has fired exactly once per
inserted entry that is no longer stored (stored values plus hook log form
a permutation of all inserted values).  Since the sequence is arbitrary,
every prefix of a run is itself a run, so the bound holds after every
`set` returns. -/
theorem cacheSet_bounded_and_hook_once {K V : Type} [DecidableEq K] [DecidableEq V]
    (falsy : V → Bool) (c : Int) (ops : List (K × V))
    (hc : 1 ≤ c) (hops : ∀ p ∈ ops, falsy p.2 = false) :
    ((runSets falsy c ops).entries.length : Int) ≤ c
    ∧ ((runSets falsy c ops).entries.map Prod.snd
        ++ (runSets falsy c ops).hookLog).Perm (ops.map Prod.snd) := by
  have h := runSets_aux falsy ops (cacheInit K V c) hc hops (by simp [cacheInit])
    (by simp [cacheInit]) (by simp only [cacheInit]; simp; omega)
  obtain ⟨-, -, hlen, hperm⟩ := h
  refine ⟨hlen, ?_⟩
  simpa [cacheInit] using hperm

/-- Witness for the amended C2 at capacity 2 with an overwrite and an
eviction. -/
theorem cacheSet_bounded_and_hook_once_witness :
    (1 : Int) ≤ 2 ∧ (∀ p ∈ [((1 : Nat), (5 : Int)), (2, 6), (1, 7), (3, 8)], falsyInt p.2 = false) ∧
    (((runSets falsyInt 2 [((1 : Nat), (5 : Int)), (2, 6), (1, 7), (3, 8)]).entries.length : Int) ≤ 2
      ∧ ((runSets falsyInt 2 [((1 : Nat), (5 : Int)), (2, 6), (1, 7), (3, 8)]).entries.map Prod.snd
          ++ (runSets falsyInt 2 [((1 : Nat), (5 : Int)), (2, 6), (1, 7), (3, 8)]).hookLog).Perm
          ([((1 : Nat), (5 : Int)), (2, 6), (1, 7), (3, 8)].map Prod.snd)) :=
  ⟨by decide, by decide,
    cacheSet_bounded_and_hook_once falsyInt 2 [((1 : Nat), (5 : Int)), (2, 6), (1, 7), (3, 8)]
      (by decide) (by decide)⟩

/-- The `setMaxSize` eviction loop, on truthy values and a non-negative
capacity, terminates and removes exactly the oldest entries beyond the
capacity, logging one hook call per eviction in order. -/
theorem evictLoop_ok {K V : Type} [DecidableEq K] (falsy : V → Bool) :
    ∀ (fuel : Nat) (st : CacheState K V),
      (∀ w ∈ st.entries.map Prod.snd, falsy w = false) →
      (st.entries.map Prod.fst).Nodup →
      0 ≤ st.maxEntries →
      st.entries.length ≤ fuel →
      evictLoop falsy fuel st = some
        { maxEntries := st.maxEntries
          entries := st.entries.drop (st.entries.length - st.maxEntries.toNat)
          hookLog := st.hookLog
            ++ (st.entries.take (st.entries.length - st.maxEntries.toNat)).map Prod.snd } := by
  intro fuel
  induction fuel with
  | zero =>
      intro st hvals hnd hmax hlen
      have hemp : st.entries = [] := List.length_eq_zero.1 (Nat.le_zero.1 hlen)
      obtain ⟨m, e, hk⟩ := st
      simp only at hemp
      subst hemp
      simp only at hmax
      simp [evictLoop, not_lt.mpr hmax]
  | succ fuel ih =>
      intro st hvals hnd hmax hlen
      by_cases hgt : (st.entries.length : Int) > st.maxEntries
      · have hntn : (st.maxEntries.toNat : Int) = st.maxEntries := Int.toNat_of_nonneg hmax
        have hgt' : st.maxEntries.toNat < st.entries.length := by
          have := hgt
          rw [← hntn] at this
          exact_mod_cast this
        have hpos : 0 < st.entries.length := by omega
        obtain ⟨⟨k0, v0⟩, rest, hsplit⟩ : ∃ p rest, st.entries = p :: rest := by
          cases h : st.entries with
          | nil => rw [h] at hpos; cases hpos
          | cons p rest => exact ⟨p, rest, rfl⟩
        have hv0 : falsy v0 = false := by
          apply hvals
          rw [hsplit]; simp
        have hk0notin : k0 ∉ rest.map Prod.fst := by
          have := hnd; rw [hsplit] at this
          simp only [List.map_cons, List.nodup_cons] at this
          exact this.1
        have hrestnd : (rest.map Prod.fst).Nodup := by
          have := hnd; rw [hsplit] at this
          simp only [List.map_cons, List.nodup_cons] at this
          exact this.2
        have hdel : jsDelete st.entries k0 = rest := by
          rw [hsplit]
          simp [jsDelete, jsDelete_of_none ((jsGet_eq_none rest k0).2 hk0notin)]
        have hold : removeOldest falsy st =
            { st with entries := rest, hookLog := st.hookLog ++ [v0] } := by
          rw [removeOldest, hsplit]
          have hget0 : jsGet st.entries k0 = some v0 := by
            rw [hsplit]; simp [jsGet]
          have : cacheRemove falsy st k0 =
              { st with entries := rest, hookLog := st.hookLog ++ [v0] } := by
            simp [cacheRemove, hget0, hv0, hdel]
          simpa using this
        have hrestvals : ∀ w ∈ rest.map Prod.snd, falsy w = false := by
          intro w hw
          apply hvals
          rw [hsplit]
          simp only [List.map_cons, List.mem_cons]
          exact Or.inr hw
        have hrestlen : rest.length ≤ fuel := by
          have := hlen; rw [hsplit] at this; simpa using this
        have hih := ih { st with entries := rest, hookLog := st.hookLog ++ [v0] }
          hrestvals hrestnd hmax hrestlen
        rw [evictLoop, if_pos hgt, hold, hih, hsplit]
        have hm : st.maxEntries.toNat ≤ rest.length := by
          rw [hsplit] at hgt'
          simp only [List.length_cons] at hgt'
          omega
        have harith2 : rest.length + 1 - st.maxEntries.toNat
            = rest.length - st.maxEntries.toNat + 1 := by omega
        simp only [List.length_cons]
        rw [harith2]
        simp [List.drop_succ_cons, List.take_succ_cons]
      · have hemp : st.entries.length - st.maxEntries.toNat = 0 := by
          have hle : (st.entries.length : Int) ≤ st.maxEntries := not_lt.1 hgt
          have hntn : (st.maxEntries.toNat : Int) = st.maxEntries := Int.toNat_of_nonneg hmax
          rw [← hntn] at hle
          have : st.entries.length ≤ st.maxEntries.toNat := by exact_mod_cast hle
          omega
        obtain ⟨m, e, hk⟩ := st
        simp only at hemp hgt ⊢
        simp [evictLoop, hgt, hemp]

/-- Claim C5, amended: for a cache whose stored values are all truthy and a
non-negative `n`, `setMaxSize(n)` sets the capacity to `n` and evicts
least-recently-used entries first, one hook call each, until the size is
within `n` (evicting nothing when `n` is at least the current size); with
a falsy stored value or a negative `n` the eviction loop never terminates
(see `evictLoop_stuck_on_falsy` and `evictLoop_stuck_on_negative`). -/
theorem setMaxSize_shrinks_lru {K V : Type} [DecidableEq K] (falsy : V → Bool)
    (st : CacheState K V) (n : Int)
    (hvals : ∀ w ∈ st.entries.map Prod.snd, falsy w = false)
    (hnd : (st.entries.map Prod.fst).Nodup)
    (hn : 0 ≤ n) :
    setMaxSize falsy st n = some
      { maxEntries := n
        entries := st.entries.drop (st.entries.length - n.toNat)
        hookLog := st.hookLog
          ++ (st.entries.take (st.entries.length - n.toNat)).map Prod.snd } := by
  unfold setMaxSize
  exact evictLoop_ok falsy st.entries.length { st with maxEntries := n }
    hvals hnd hn (le_refl _)

/-- Witness for the amended C5: after sets `A, B, C` at capacity 3,
`setMaxSize 1` evicts exactly `A` then `B` (hook log `[1, 2]`, oldest
first) leaving `C`. -/
theorem setMaxSize_shrinks_lru_witness :
    setMaxSize falsyInt stABC 1
      = some ⟨1, [(30, (3 : Int))], [(1 : Int), 2]⟩ := by
  have h := setMaxSize_shrinks_lru falsyInt stABC 1 (by decide) (by decide) (by decide)
  rw [h]
  rfl
